import Mathlib

/-!
Shallow embedding of the Gru-Backend text pipeline: the chunker
(`splitTextIntoChunks`), the summarize-document fan-out aggregator, the two
question synthesizers (`Ai.generateQuestion` from src/routes/ai.ts and
`P2.generateQuestion` from the sibling variant), the generate-quiz question
collection loops, and the verify-answers grader.  Strings are modelled as
`List Char`; the JS regex classes are restricted to the ASCII characters the
sources manipulate.  Randomness (Math.random) is modelled by explicit choice
parameters, and while-loops by a fuel parameter: an output of `none` for
every fuel value means the loop never terminates.
-/

set_option maxHeartbeats 1000000

abbrev Str := List Char

/-- JS regex class \s, restricted to ASCII (space, tab, newline, carriage
return, vertical tab, form feed). -/
def isWs (c : Char) : Bool :=
  c == ' ' || c == '\t' || c == '\n' || c == '\r' || c == Char.ofNat 11 || c == Char.ofNat 12

/-- Sentence-ending punctuation used in the regexes [.!?]. -/
def isPunctSE (c : Char) : Bool :=
  c == '.' || c == '!' || c == '?'

/-- Word characters recognised by natural's WordTokenizer (ASCII fragment):
letters, digits and underscore. -/
def wordChar (c : Char) : Bool :=
  c.isAlphanum || c == '_'

/-- JS String.prototype.trim (ASCII whitespace). -/
def trimWs (s : Str) : Str :=
  ((s.dropWhile isWs).reverse.dropWhile isWs).reverse

/-- First argument is the pattern: startsWithL p s is JS s.startsWith(p). -/
def startsWithL : Str → Str → Bool
  | [], _ => true
  | _ :: _, [] => false
  | p :: ps, c :: cs => p == c && startsWithL ps cs

/-- JS String.prototype.includes: containsSub hay pat. -/
def containsSub : Str → Str → Bool
  | [], pat => startsWithL pat []
  | hay@(_ :: rest), pat => startsWithL pat hay || containsSub rest pat

/-- JS String.prototype.toLowerCase (ASCII fragment). -/
def lowerStr (s : Str) : Str := s.map Char.toLower

/-- JS String.prototype.replace with a plain-string pattern: replaces the
first occurrence only.  replaceFirst hay pat repl. -/
def replaceFirst : Str → Str → Str → Str
  | [], _, _ => []
  | hay@(c :: rest), pat, repl =>
    if startsWithL pat hay then repl ++ hay.drop pat.length
    else c :: replaceFirst rest pat repl

/-- JS Array.prototype.join with a separator. -/
def joinSep (sep : Str) : List Str → Str
  | [] => []
  | [s] => s
  | s :: rest => s ++ sep ++ joinSep sep rest

/-- chunks.map((chunk, index) => f index chunk), with a starting index. -/
def mapIdxFrom (f : Nat → α → β) : Nat → List α → List β
  | _, [] => []
  | i, a :: as => f i a :: mapIdxFrom f (i + 1) as

/-- JS Array.prototype.slice(0, e) where e may be negative (counted from the
end, clamped at zero). -/
def jsSliceFrom0 (l : List α) (e : Int) : List α :=
  if e < 0 then l.take (l.length - (-e).toNat) else l.take e.toNat

/-- Decimal digits of a natural number, as in JS template interpolation. -/
def natChars (n : Nat) : Str := Nat.toDigits 10 n

/-- Splitting on runs of characters satisfying p, with JS String.split
semantics for a one-or-more regex such as /\s+/ or /[.!?]+/: a separator at
either end contributes an empty piece.  The state is some cur (inside a
piece, accumulated in reverse) or none (inside a separator run). -/
def runSplitAux (p : Char → Bool) : List Char → Option (List Char) → List (List Char)
  | [], some cur => [cur.reverse]
  | [], none => [[]]
  | c :: rest, some cur =>
    if p c then cur.reverse :: runSplitAux p rest none
    else runSplitAux p rest (some (c :: cur))
  | c :: rest, none =>
    if p c then runSplitAux p rest none
    else runSplitAux p rest (some [c])

/-- JS text.split(/\s+/). -/
def splitWs (s : Str) : List Str := runSplitAux isWs s (some [])

/-- JS text.split(/[.!?]+/). -/
def punctRunSplit (s : Str) : List Str := runSplitAux isPunctSE s (some [])

/-- Tokenization by natural's WordTokenizer: maximal runs of word
characters (empty boundary tokens are trimmed away by the library). -/
def tokenize (s : Str) : List Str :=
  (runSplitAux (fun c => !wordChar c) s (some [])).filter (fun w => !w.isEmpty)

/-- Scanner state for the sentence split /(?<=[.!?])\s+/. -/
inductive SentSt where
  | norm (cur : List Char)
  | punct (cur : List Char)
  | skip
deriving DecidableEq

/-- JS text.split(/(?<=[.!?])\s+/): a separator is a maximal whitespace run
immediately preceded by sentence-ending punctuation. -/
def sentAux : List Char → SentSt → List (List Char)
  | [], .norm cur => [cur.reverse]
  | [], .punct cur => [cur.reverse]
  | [], .skip => [[]]
  | c :: rest, .norm cur =>
    if isPunctSE c then sentAux rest (.punct (c :: cur))
    else sentAux rest (.norm (c :: cur))
  | c :: rest, .punct cur =>
    if isWs c then cur.reverse :: sentAux rest .skip
    else if isPunctSE c then sentAux rest (.punct (c :: cur))
    else sentAux rest (.norm (c :: cur))
  | c :: rest, .skip =>
    if isWs c then sentAux rest .skip
    else if isPunctSE c then sentAux rest (.punct [c])
    else sentAux rest (.norm [c])

/-- Sentence split used for oversized paragraphs. -/
def sentSplit (s : Str) : List Str := sentAux s (.norm [])

/-- Scanner state for the paragraph split /\n\s*\n/. -/
inductive ParaSt where
  | norm (cur : List Char)
  | seekSecond (cur wsBuf : List Char)
  | inSep (tail : List Char)
deriving DecidableEq

/-- JS text.split(/\n\s*\n/) with backtracking semantics: the separator runs
from a newline to the last newline inside the following whitespace run.
In seekSecond, wsBuf is the whitespace seen since the first newline
(reversed) in case the separator fails to close; in inSep, tail is the
whitespace seen since the most recent newline, which belongs to the next
piece unless another newline extends the separator. -/
def paraAux : List Char → ParaSt → List (List Char)
  | [], .norm cur => [cur.reverse]
  | [], .seekSecond cur wsBuf => [(wsBuf ++ cur).reverse]
  | [], .inSep tail => [tail.reverse]
  | c :: rest, .norm cur =>
    if c == '\n' then paraAux rest (.seekSecond cur ['\n'])
    else paraAux rest (.norm (c :: cur))
  | c :: rest, .seekSecond cur wsBuf =>
    if c == '\n' then cur.reverse :: paraAux rest (.inSep [])
    else if isWs c then paraAux rest (.seekSecond cur (c :: wsBuf))
    else paraAux rest (.norm (c :: (wsBuf ++ cur)))
  | c :: rest, .inSep tail =>
    if c == '\n' then paraAux rest (.inSep [])
    else if isWs c then paraAux rest (.inSep (c :: tail))
    else paraAux rest (.norm (c :: tail))

/-- JS const paragraphs = text.split(/\n\s*\n/). -/
def splitParagraphs (text : Str) : List Str := paraAux text (.norm [])

/-- Inner word loop of splitTextIntoChunks (ai.ts lines 96-110).  State is
(chunks so far, tempChunk). -/
def pushWord (max : Nat) : List Str × Str → Str → List Str × Str
  | (chunks, temp), word =>
    if temp.length + word.length + 1 > max then
      if temp.isEmpty then
        (chunks ++ [word.take (max / 2)], word.drop (max / 2))
      else
        (chunks ++ [trimWs temp], word)
    else
      (chunks, temp ++ (if temp.isEmpty then [] else [' ']) ++ word)

/-- After the word loop the leftover tempChunk is appended to currentChunk
with no size check (ai.ts lines 112-114); r is the word-loop result. -/
def mergeTemp (cur : Str) (r : List Str × Str) : List Str × Str :=
  if r.2.isEmpty then (r.1, cur)
  else (r.1, cur ++ (if cur.isEmpty then [] else [' ']) ++ r.2)

/-- Sentence loop body of splitTextIntoChunks (ai.ts lines 90-121).  State is
(chunks so far, currentChunk). -/
def pushSentence (max : Nat) : List Str × Str → Str → List Str × Str
  | (chunks, cur), sentence =>
    if sentence.length > max then
      mergeTemp cur ((splitWs sentence).foldl (pushWord max) (chunks, []))
    else if cur.length + sentence.length + 1 > max then
      (chunks ++ [trimWs cur], sentence)
    else
      (chunks, cur ++ (if cur.isEmpty then [] else [' ']) ++ sentence)

/-- Paragraph loop body of splitTextIntoChunks (ai.ts lines 85-128). -/
def pushParagraph (max : Nat) : List Str × Str → Str → List Str × Str
  | (chunks, cur), para =>
    if para.length > max then
      (sentSplit para).foldl (pushSentence max) (chunks, cur)
    else if cur.length + para.length + 2 > max then
      (chunks ++ [trimWs cur], para)
    else
      (chunks, cur ++ (if cur.isEmpty then [] else ['\n', '\n']) ++ para)

/-- Final flush of currentChunk (ai.ts lines 130-132). -/
def finalFlush (r : List Str × Str) : List Str :=
  if r.2.isEmpty then r.1 else r.1 ++ [trimWs r.2]

/-- splitTextIntoChunks from src/routes/ai.ts lines 78-135. -/
def splitTextIntoChunks (text : Str) (max : Nat) : List Str :=
  finalFlush ((splitParagraphs text).foldl (pushParagraph max) ([], []))

/-! The summarize-document fan-out aggregator (src/routes/ai.ts lines
311-426).  The external summarization client is modelled as a function from
the chunk index to a classified result; the per-chunk try/catch of the source
turns every client failure into a bracketed marker string, so outcomes are
strings exactly as in the code. -/

/-- Outcome of one call to the external summarization capability.  The
source classifies a thrown error by whether its message mentions a rate
limit. -/
inductive ClientRes where
  | ok (s : Str)
  | rateLimited
  | failed
deriving DecidableEq

/-- MAX_CHUNK_SIZE from ai.ts line 311. -/
def MAX_CHUNK_SIZE : Nat := 2000

/-- Marker returned for an oversize chunk (ai.ts line 365). -/
def skippedMsg (n : Nat) : Str :=
  "[Skipped: Chunk ".toList ++ natChars n ++ " is too large for the summarization model]".toList

/-- Marker returned on a rate-limit error (ai.ts line 394). -/
def rateMsg (n : Nat) : Str :=
  "[Rate limit exceeded for section ".toList ++ natChars n ++ "]".toList

/-- Marker returned on any other error (ai.ts line 397). -/
def errMsg (n : Nat) : Str :=
  "[Error summarizing section ".toList ++ natChars n ++ "]".toList

/-- Body of the chunks.map callback (ai.ts lines 362-399): oversize chunks
are skipped before the client is consulted; otherwise the client outcome is
the summary text or a bracketed marker. -/
def processChunk (client : Nat → ClientRes) (i : Nat) (chunk : Str) : Str :=
  if chunk.length > MAX_CHUNK_SIZE then skippedMsg (i + 1)
  else
    match client i with
    | .ok s => s
    | .rateLimited => rateMsg (i + 1)
    | .failed => errMsg (i + 1)

/-- The summaries array produced by Promise.all over chunks.map. -/
def chunkSummaries (client : Nat → ClientRes) (chunks : List Str) : List Str :=
  mapIdxFrom (processChunk client) 0 chunks

/-- The skippedChunks array: 1-based indices of oversize chunks, pushed in
index order during the synchronous prefix of each mapped callback. -/
def skippedIdxFrom : Nat → List Str → List Nat
  | _, [] => []
  | i, c :: cs =>
    if c.length > MAX_CHUNK_SIZE then (i + 1) :: skippedIdxFrom (i + 1) cs
    else skippedIdxFrom (i + 1) cs

/-- skippedChunks for a chunk list. -/
def skippedChunksOf (chunks : List Str) : List Nat := skippedIdxFrom 0 chunks

/-- The code classifies an outcome string as a failure marker by whether it
starts with an opening bracket (ai.ts lines 406-420). -/
def isBracketed (s : Str) : Bool := startsWithL "[".toList s

/-- summaries.filter(s => !s.startsWith(lbracket)): the successful
summaries, in segment-index order. -/
def successfulOf (sums : List Str) : List Str :=
  sums.filter (fun s => !isBracketed s)

/-- combinedSummary = successes joined with a blank line (ai.ts 406-408). -/
def combinedOf (sums : List Str) : Str :=
  joinSep "\n\n".toList (successfulOf sums)

/-- Response of the summarize-document combine step. -/
inductive DocSummaryResult where
  | noSummaries
  | ok (summary : Str) (totalChunks successCount failedCount : Nat) (skipped : List Nat)
deriving DecidableEq

/-- Lines 402-426 of ai.ts: a falsy (empty) combinedSummary yields the HTTP
500 "Failed to generate any summaries" branch, otherwise the summary plus
metadata is returned. -/
def summarizeDocumentOutcome (client : Nat → ClientRes) (chunks : List Str) : DocSummaryResult :=
  let sums := chunkSummaries client chunks
  let combined := combinedOf sums
  if combined.isEmpty then .noSummaries
  else
    .ok combined chunks.length (successfulOf sums).length
      ((sums.filter (fun s => startsWithL "[Error".toList s)).length)
      (skippedChunksOf chunks)

/-! The question synthesizer and quiz route of the variant source file
(src/unnamed/part_002). -/

namespace P2

/-- Question shape produced by generateQuestion. -/
structure Question where
  question : Str
  options : List Str
  correct : Str
deriving DecidableEq

/-- Stop-word list from part_002 line 204, transcribed verbatim (including
its duplicated entries). -/
def stopWords : List Str :=
  ["the", "and", "that", "this", "with", "from", "have", "they", "their",
   "there", "about", "what", "when", "where", "which", "who", "why", "how",
   "remember", "think", "know", "was", "were", "will", "would", "could",
   "should", "might", "may", "must", "very", "much", "many", "some", "any",
   "all", "none", "both", "either", "neither", "each", "every", "few",
   "several", "most", "more", "less", "least", "most", "more", "less",
   "least"].map String.toList

/-- JS s.endsWith(single character). -/
def endsWithCh (c : Char) (s : Str) : Bool :=
  match s.getLast? with
  | some d => d == c
  | none => false

/-- The morphological variant manufactured by the option-padding loop
(part_002 lines 237-246): strip a trailing s, turn a trailing y into ies, or
append an s. -/
def morphVariant (b : Str) : Str :=
  if endsWithCh 's' b then b.dropLast
  else if endsWithCh 'y' b then b.dropLast ++ "ies".toList
  else b ++ "s".toList

/-- The while (options.length < 4) padding loop (part_002 lines 236-251),
with one fuel unit per iteration; none means the loop was still running when
the fuel ran out.  The candidate is recomputed from the same base term every
iteration. -/
def padOptions : Nat → List Str → Str → Option (List Str)
  | 0, opts, _ => if opts.length < 4 then none else some opts
  | fuel + 1, opts, base =>
    if opts.length < 4 then
      let newOption := morphVariant base
      padOptions fuel (if newOption ∈ opts then opts else opts ++ [newOption]) base
    else some opts

/-- One draw of the Math.random uses inside generateQuestion: the key-term
index, the question-template coin flip, and the permutation produced by the
random-comparator shuffle. -/
structure RandPick where
  pick : Nat
  qflag : Bool
  perm : List Str → List Str

/-- generateQuestion from part_002 lines 180-261.  The outer Option is
divergence fuel for the padding loop (none = the loop never finished); the
inner Option is the null result of the source. -/
def generateQuestion (padFuel : Nat) (rp : RandPick) (concept : Str) : Option (Option Question) :=
  let sentences := ((punctRunSplit concept).map trimWs).filter (fun s => !s.isEmpty)
  match sentences with
  | [] => some none
  | sentence :: _ =>
    let words := tokenize sentence
    if words.length < 5 then some none
    else
      let keyTerms := words.filter
        (fun w => decide (w.length > 3) && !stopWords.contains (lowerStr w))
      if keyTerms.length < 2 then some none
      else
        let termToUse := keyTerms.getD (rp.pick % keyTerms.length) []
        let lowerS := lowerStr sentence
        let question :=
          if containsSub lowerS "is".toList || containsSub lowerS "are".toList then
            replaceFirst sentence termToUse "_____".toList
          else
            (if rp.qflag then "What is".toList else "Which of the following".toList)
              ++ [' '] ++ lowerStr termToUse ++ "?".toList
        let options0 := termToUse :: (keyTerms.filter (fun t => t ≠ termToUse)).take 3
        match padOptions padFuel options0 termToUse with
        | none => none
        | some opts => some (some ⟨trimWs question, (rp.perm opts).take 4, termToUse⟩)

/-- chunks = text.split(/\n\n+/).filter(c => c.trim().length > 0), from the
generate-quiz route (part_002 line 487). -/
inductive NlSt where
  | norm (cur : List Char)
  | sawNl (cur : List Char)
  | inSep
deriving DecidableEq

/-- JS text.split(/\n\n+/): separators are maximal runs of at least two
newlines. -/
def nlAux : List Char → NlSt → List (List Char)
  | [], .norm cur => [cur.reverse]
  | [], .sawNl cur => [('\n' :: cur).reverse]
  | [], .inSep => [[]]
  | c :: rest, .norm cur =>
    if c == '\n' then nlAux rest (.sawNl cur) else nlAux rest (.norm (c :: cur))
  | c :: rest, .sawNl cur =>
    if c == '\n' then cur.reverse :: nlAux rest .inSep
    else nlAux rest (.norm (c :: '\n' :: cur))
  | c :: rest, .inSep =>
    if c == '\n' then nlAux rest .inSep else nlAux rest (.norm [c])

/-- The chunk list used by the generate-quiz route. -/
def quizChunks (text : Str) : List Str :=
  (nlAux text (.norm [])).filter (fun c => !(trimWs c).isEmpty)

/-- First question-collection pass (part_002 lines 490-497): one
generateQuestion call per chunk, stopping at 5 questions.  The counter k
indexes into the stream of random draws; none propagates divergence of a
generateQuestion call. -/
def firstPass (gqFuel : Nat) (rc : Nat → RandPick) :
    Nat → List Str → List Question → Option (Nat × List Question)
  | k, [], qs => some (k, qs)
  | k, chunk :: rest, qs =>
    match generateQuestion gqFuel (rc k) chunk with
    | none => none
    | some none => firstPass gqFuel rc (k + 1) rest qs
    | some (some q) =>
      let qs' := qs ++ [q]
      if qs'.length ≥ 5 then some (k + 1, qs')
      else firstPass gqFuel rc (k + 1) rest qs'

/-- Inner for-loop of the top-up while loop (part_002 lines 501-507): like
firstPass but questions whose stem matches an accepted one are skipped. -/
def innerFor (gqFuel : Nat) (rc : Nat → RandPick) :
    Nat → List Str → List Question → Option (Nat × List Question)
  | k, [], qs => some (k, qs)
  | k, chunk :: rest, qs =>
    match generateQuestion gqFuel (rc k) chunk with
    | none => none
    | some none => innerFor gqFuel rc (k + 1) rest qs
    | some (some q) =>
      if qs.any (fun q0 => q0.question == q.question) then
        innerFor gqFuel rc (k + 1) rest qs
      else
        let qs' := qs ++ [q]
        if qs'.length ≥ 5 then some (k + 1, qs')
        else innerFor gqFuel rc (k + 1) rest qs'

/-- The while (questions.length < 5 && chunks.length > 0) top-up loop
(part_002 lines 500-508), one fuel unit per while iteration; none means the
loop (or a call inside it) never terminated within the fuel. -/
def topUp (gqFuel : Nat) (rc : Nat → RandPick) :
    Nat → Nat → List Str → List Question → Option (Nat × List Question)
  | 0, k, chunks, qs =>
    if qs.length < 5 ∧ chunks.length > 0 then none else some (k, qs)
  | wFuel + 1, k, chunks, qs =>
    if qs.length < 5 ∧ chunks.length > 0 then
      match innerFor gqFuel rc k chunks qs with
      | none => none
      | some (k', qs') => topUp gqFuel rc wFuel k' chunks qs'
    else some (k, qs)

/-- Question collection of the generate-quiz route (part_002 lines 487-516),
up to but not including the best-effort LLM refinement (which maps the list
one-to-one).  The outer Option is divergence fuel; the inner Option none is
the 400 "Could not generate questions" branch. -/
def generateQuizQuestions (gqFuel wFuel : Nat) (rc : Nat → RandPick) (text : Str) :
    Option (Option (List Question)) :=
  let chunks := quizChunks text
  match firstPass gqFuel rc 0 chunks [] with
  | none => none
  | some (k, qs) =>
    match topUp gqFuel rc wFuel k chunks qs with
    | none => none
    | some (_, qs') =>
      some (if qs'.length = 0 then none else some (qs'.take 5))

end P2

/-! The question synthesizer of src/routes/ai.ts (lines 183-293). -/

namespace Ai

/-- The curated concept→related-terms table (ai.ts lines 203-219), in source
order. -/
def conceptMapTable : List (Str × List Str) :=
  [("artificial intelligence", ["machine learning", "deep learning", "neural networks", "computer vision"]),
   ("learning", ["training", "adaptation", "improvement", "development"]),
   ("reasoning", ["logic", "deduction", "inference", "analysis"]),
   ("problem-solving", ["algorithms", "solutions", "strategies", "methods"]),
   ("perception", ["sensing", "recognition", "understanding", "interpretation"]),
   ("decision-making", ["choices", "judgment", "evaluation", "selection"]),
   ("applications", ["uses", "implementations", "deployments", "systems"]),
   ("research", ["study", "investigation", "development", "exploration"]),
   ("goals", ["objectives", "aims", "targets", "purposes"]),
   ("tools", ["techniques", "methods", "approaches", "technologies"]),
   ("data", ["information", "facts", "statistics", "knowledge"]),
   ("model", ["system", "framework", "structure", "design"]),
   ("algorithm", ["procedure", "process", "method", "technique"]),
   ("system", ["framework", "structure", "organization", "setup"]),
   ("technology", ["innovation", "development", "advancement", "progress"])
  ].map (fun e => (e.1.toList, e.2.map String.toList))

/-- Object.keys(conceptMap), in insertion order. -/
def conceptKeys : List Str := conceptMapTable.map (fun e => e.1)

/-- The for-of loop over Object.entries with break on the first key the
lowercased sentence contains (ai.ts lines 225-231). -/
def findConcept (lowerS : Str) : Option (Str × List Str) :=
  conceptMapTable.find? (fun e => containsSub lowerS e.1)

/-- The while (options.length < 4) loop of ai.ts lines 278-283: draws random
table keys (via the stream rk) and appends those not already present.  One
fuel unit per iteration; none means the loop outlived the fuel. -/
def padKeysLoop : Nat → (Nat → Nat) → Nat → List Str → Option (List Str)
  | 0, _, _, opts => if opts.length < 4 then none else some opts
  | fuel + 1, rk, j, opts =>
    if opts.length < 4 then
      let k := conceptKeys.getD (rk j % conceptKeys.length) []
      padKeysLoop fuel rk (j + 1) (if k ∈ opts then opts else opts ++ [k])
    else some opts

/-- generateQuestion from ai.ts lines 183-293.  rk feeds the random key
draws of the padding loop and perm is the permutation produced by the
random-comparator shuffle.  The outer Option is divergence fuel for the
padding loop; the inner Option is the null result of the source. -/
def generateQuestion (padFuel : Nat) (rk : Nat → Nat) (perm : List Str → List Str)
    (concept : Str) : Option (Option P2.Question) :=
  let sentences := ((punctRunSplit concept).map trimWs).filter (fun s => !s.isEmpty)
  match sentences with
  | [] => some none
  | sentence :: _ =>
    let words := tokenize sentence
    if words.length < 5 then some none
    else
      let lowerS := lowerStr sentence
      let found : Option (Str × List Str) :=
        match findConcept lowerS with
        | some e => some e
        | none =>
          let keyTerms := words.filter (fun w => decide (w.length > 4))
          match keyTerms with
          | [] => none
          | t :: _ => some (t, (keyTerms.drop 1).take 3)
      match found with
      | none => some none
      | some (mainConcept, relatedConcepts) =>
        let question :=
          if containsSub lowerS "is the".toList || containsSub lowerS "are the".toList then
            "What is the definition of ".toList ++ mainConcept ++ "?".toList
          else if containsSub lowerS "include".toList || containsSub lowerS "includes".toList then
            "Which of the following is a key component of ".toList ++ mainConcept ++ "?".toList
          else if containsSub lowerS "founded".toList || containsSub lowerS "established".toList then
            "When was ".toList ++ mainConcept ++ " first established as a field of study?".toList
          else if containsSub lowerS "capability".toList || containsSub lowerS "abilities".toList then
            "What is a primary capability of ".toList ++ mainConcept ++ "?".toList
          else if containsSub lowerS "used".toList || containsSub lowerS "uses".toList then
            "What is the primary use of ".toList ++ mainConcept ++ "?".toList
          else if containsSub lowerS "important".toList || containsSub lowerS "significance".toList then
            "Why is ".toList ++ mainConcept ++ " important?".toList
          else
            "Which of the following best describes ".toList ++ mainConcept ++ "?".toList
        let options1 := mainConcept :: relatedConcepts
        let otherConcepts :=
          jsSliceFrom0 (conceptKeys.filter (fun k => k ≠ mainConcept))
            ((4 : Int) - options1.length)
        let options2 := options1 ++ otherConcepts
        match padKeysLoop padFuel rk 0 options2 with
        | none => none
        | some opts => some (some ⟨trimWs question, (perm opts).take 4, mainConcept⟩)

/-- Submitted answer shape for the verify-answers route (ai.ts 685-733). -/
structure AnswerSubmission where
  questionId : Nat
  question : Str
  selectedAnswer : Str
  correctAnswer : Str
deriving DecidableEq

/-- Graded answer shape returned per submission. -/
structure GradedAnswer where
  questionId : Nat
  question : Str
  selectedAnswer : Str
  correctAnswer : Str
  isCorrect : Bool
  feedback : Str
deriving DecidableEq

/-- The feedback string for a missing submitted or correct value. -/
def noAnswerFeedback : Str := "No answer provided or correct answer missing.".toList

/-- Per-answer grading (ai.ts lines 694-714): a falsy (empty) submitted or
correct value is graded incorrect with an explanatory feedback string;
otherwise correctness is case-insensitive string equality. -/
def gradeAnswer (a : AnswerSubmission) : GradedAnswer :=
  if a.selectedAnswer.isEmpty || a.correctAnswer.isEmpty then
    ⟨a.questionId, a.question, a.selectedAnswer, a.correctAnswer, false, noAnswerFeedback⟩
  else
    let ic := lowerStr a.selectedAnswer == lowerStr a.correctAnswer
    ⟨a.questionId, a.question, a.selectedAnswer, a.correctAnswer, ic,
      if ic then "Correct!".toList
      else "Incorrect. The correct answer is: ".toList ++ a.correctAnswer⟩

/-- results = answers.map(gradeAnswer). -/
def verifyAnswers (answers : List AnswerSubmission) : List GradedAnswer :=
  answers.map gradeAnswer

/-- score = results.filter(r => r.isCorrect).length. -/
def verifyScore (results : List GradedAnswer) : Nat :=
  (results.filter (fun r => r.isCorrect)).length

end Ai

/-! Proof infrastructure: non-whitespace content of strings and chunk
lists. -/

/-- The non-whitespace characters of a string, in order. -/
def nonWs (s : Str) : Str := s.filter (fun c => !isWs c)

/-- Concatenated non-whitespace content of a list of strings. -/
def joinN (cs : List Str) : Str := (cs.map nonWs).join

/-- Non-whitespace content still owed by a runSplitAux state. -/
def runStVal : Option (List Char) → Str
  | some cur => nonWs cur.reverse
  | none => []

/-- Non-whitespace content still owed by a sentAux state. -/
def sentStVal : SentSt → Str
  | .norm cur => nonWs cur.reverse
  | .punct cur => nonWs cur.reverse
  | .skip => []

/-- Non-whitespace content still owed by a paraAux state. -/
def paraStVal : ParaSt → Str
  | .norm cur => nonWs cur.reverse
  | .seekSecond cur _ => nonWs cur.reverse
  | .inSep _ => []

/-- Reachable paraAux states keep only whitespace in wsBuf and tail. -/
def paraStWf : ParaSt → Prop
  | .norm _ => True
  | .seekSecond _ wsBuf => ∀ c ∈ wsBuf, isWs c = true
  | .inSep tail => ∀ c ∈ tail, isWs c = true

/-- Non-whitespace content carried by a chunker fold state. -/
def chunkVal (st : List Str × Str) : Str := joinN st.1 ++ nonWs st.2

/-- Non-whitespace content of a single character. -/
def nwChar (c : Char) : Str := if isWs c then [] else [c]

/-- Text from which the part_002 synthesizer can produce exactly two
distinct question stems. -/
def quizTwoText : Str := "alpha alpha beta beta is".toList

/-- Stem produced on quizTwoText when the random key term is alpha. -/
def quizStemA : Str := "_____ alpha beta beta is".toList

/-- Stem produced on quizTwoText when the random key term is beta. -/
def quizStemB : Str := "alpha alpha _____ beta is".toList

/-- States the accepted-question list of the top-up loop can reach on
quizTwoText: its stems form one of five lists over the two producible
stems. -/
def quizInv (qs : List P2.Question) : Prop :=
  qs.map P2.Question.question = [] ∨
  qs.map P2.Question.question = [quizStemA] ∨
  qs.map P2.Question.question = [quizStemB] ∨
  qs.map P2.Question.question = [quizStemA, quizStemB] ∨
  qs.map P2.Question.question = [quizStemB, quizStemA]

theorem nonWs_append (a b : Str) : nonWs (a ++ b) = nonWs a ++ nonWs b := by
  simp [nonWs]

theorem nonWs_cons_ws {c : Char} (h : isWs c = true) (s : Str) :
    nonWs (c :: s) = nonWs s := by
  simp [nonWs, h]

theorem nonWs_cons_nws {c : Char} (h : isWs c = false) (s : Str) :
    nonWs (c :: s) = c :: nonWs s := by
  simp [nonWs, h]

theorem nonWs_reverse (s : Str) : nonWs s.reverse = (nonWs s).reverse := by
  simp [nonWs]

theorem nonWs_eq_nil_of_ws {s : Str} (h : ∀ c ∈ s, isWs c = true) :
    nonWs s = [] := by
  induction s with
  | nil => rfl
  | cons c cs ih =>
    rw [nonWs_cons_ws (h c (by simp))]
    exact ih fun d hd => h d (by simp [hd])

theorem nonWs_dropWhile (s : Str) : nonWs (s.dropWhile isWs) = nonWs s := by
  induction s with
  | nil => rfl
  | cons c cs ih =>
    by_cases h : isWs c = true
    · rw [List.dropWhile_cons, if_pos h, ih, nonWs_cons_ws h]
    · rw [List.dropWhile_cons, if_neg h]

theorem nonWs_trimWs (s : Str) : nonWs (trimWs s) = nonWs s := by
  unfold trimWs
  rw [nonWs_reverse, nonWs_dropWhile, nonWs_reverse, nonWs_dropWhile,
    List.reverse_reverse]

theorem trimWs_length_le (s : Str) : (trimWs s).length ≤ s.length := by
  unfold trimWs
  calc ((s.dropWhile isWs).reverse.dropWhile isWs).reverse.length
      = ((s.dropWhile isWs).reverse.dropWhile isWs).length := List.length_reverse _
    _ ≤ (s.dropWhile isWs).reverse.length := (List.dropWhile_sublist _).length_le
    _ = (s.dropWhile isWs).length := List.length_reverse _
    _ ≤ s.length := (List.dropWhile_sublist _).length_le

theorem nonWs_cons_nw (c : Char) (s : Str) : nonWs (c :: s) = nwChar c ++ nonWs s := by
  simp only [nonWs, nwChar, List.filter_cons]
  cases h : isWs c <;> simp [h]

theorem nonWs_nil : nonWs [] = [] := rfl

theorem nonWs_singleton (c : Char) : nonWs [c] = nwChar c := by
  rw [nonWs_cons_nw, nonWs_nil]
  simp

theorem joinN_nil : joinN [] = [] := rfl

theorem joinN_cons (a : Str) (l : List Str) : joinN (a :: l) = nonWs a ++ joinN l := by
  simp [joinN]

theorem joinN_append (l₁ l₂ : List Str) : joinN (l₁ ++ l₂) = joinN l₁ ++ joinN l₂ := by
  simp [joinN]

theorem runSplitAux_nonWs (p : Char → Bool) (hp : ∀ c, p c = true → isWs c = true) :
    ∀ (l : List Char) (st : Option (List Char)),
      joinN (runSplitAux p l st) = runStVal st ++ nonWs l
  | [], some cur => by simp [runSplitAux, runStVal, joinN, nonWs]
  | [], none => by simp [runSplitAux, runStVal, joinN, nonWs]
  | c :: rest, some cur => by
    rw [runSplitAux]
    by_cases h : p c
    · rw [if_pos h, joinN_cons, runSplitAux_nonWs p hp rest none,
        nonWs_cons_ws (hp c h)]
      simp [runStVal]
    · rw [if_neg h, runSplitAux_nonWs p hp rest (some (c :: cur))]
      simp [runStVal, List.reverse_cons, nonWs_append, nonWs_singleton,
        nonWs_cons_nw, nonWs_nil, List.append_assoc]
  | c :: rest, none => by
    rw [runSplitAux]
    by_cases h : p c
    · rw [if_pos h, runSplitAux_nonWs p hp rest none, nonWs_cons_ws (hp c h)]
    · rw [if_neg h, runSplitAux_nonWs p hp rest (some [c])]
      simp [runStVal, nonWs_singleton, nonWs_cons_nw, nonWs_nil]

theorem splitWs_nonWs (s : Str) : joinN (splitWs s) = nonWs s := by
  have h := runSplitAux_nonWs isWs (fun _ h => h) s (some [])
  simpa [splitWs, runStVal, nonWs] using h

theorem sentAux_nonWs :
    ∀ (l : List Char) (st : SentSt), joinN (sentAux l st) = sentStVal st ++ nonWs l
  | [], .norm cur => by simp [sentAux, sentStVal, joinN, nonWs]
  | [], .punct cur => by simp [sentAux, sentStVal, joinN, nonWs]
  | [], .skip => by simp [sentAux, sentStVal, joinN, nonWs]
  | c :: rest, .norm cur => by
    rw [sentAux]
    by_cases h : isPunctSE c
    · rw [if_pos h, sentAux_nonWs rest (.punct (c :: cur))]
      simp [sentStVal, List.reverse_cons, nonWs_append, nonWs_singleton,
        nonWs_cons_nw, nonWs_nil, List.append_assoc]
    · rw [if_neg h, sentAux_nonWs rest (.norm (c :: cur))]
      simp [sentStVal, List.reverse_cons, nonWs_append, nonWs_singleton,
        nonWs_cons_nw, nonWs_nil, List.append_assoc]
  | c :: rest, .punct cur => by
    rw [sentAux]
    by_cases h : isWs c
    · rw [if_pos h, joinN_cons, sentAux_nonWs rest .skip, nonWs_cons_ws h]
      simp [sentStVal]
    · rw [if_neg h]
      by_cases h2 : isPunctSE c
      · rw [if_pos h2, sentAux_nonWs rest (.punct (c :: cur))]
        simp [sentStVal, List.reverse_cons, nonWs_append, nonWs_singleton,
          nonWs_cons_nw, nonWs_nil, List.append_assoc]
      · rw [if_neg h2, sentAux_nonWs rest (.norm (c :: cur))]
        simp [sentStVal, List.reverse_cons, nonWs_append, nonWs_singleton,
          nonWs_cons_nw, nonWs_nil, List.append_assoc]
  | c :: rest, .skip => by
    rw [sentAux]
    by_cases h : isWs c
    · rw [if_pos h, sentAux_nonWs rest .skip, nonWs_cons_ws h]
    · rw [if_neg h]
      by_cases h2 : isPunctSE c
      · rw [if_pos h2, sentAux_nonWs rest (.punct [c])]
        simp [sentStVal, nonWs_singleton, nonWs_cons_nw, nonWs_nil]
      · rw [if_neg h2, sentAux_nonWs rest (.norm [c])]
        simp [sentStVal, nonWs_singleton, nonWs_cons_nw, nonWs_nil]

theorem sentSplit_nonWs (s : Str) : joinN (sentSplit s) = nonWs s := by
  have h := sentAux_nonWs s (.norm [])
  simpa [sentSplit, sentStVal, nonWs] using h

theorem paraAux_nonWs :
    ∀ (l : List Char) (st : ParaSt), paraStWf st →
      joinN (paraAux l st) = paraStVal st ++ nonWs l
  | [], .norm cur, _ => by simp [paraAux, paraStVal, joinN, nonWs]
  | [], .seekSecond cur wsBuf, hw => by
    have hw' : ∀ x ∈ wsBuf, isWs x = true := hw
    have hbuf : nonWs wsBuf.reverse = [] :=
      nonWs_eq_nil_of_ws fun c hc => hw' c (List.mem_reverse.mp hc)
    simp [paraAux, paraStVal, joinN, List.reverse_append, nonWs_append, hbuf, nonWs_nil]
  | [], .inSep tail, hw => by
    have hw' : ∀ x ∈ tail, isWs x = true := hw
    have htail : nonWs tail.reverse = [] :=
      nonWs_eq_nil_of_ws fun c hc => hw' c (List.mem_reverse.mp hc)
    simp [paraAux, paraStVal, joinN, htail, nonWs_nil]
  | c :: rest, .norm cur, _ => by
    rw [paraAux]
    by_cases h : c == '\n'
    · have hc : c = '\n' := eq_of_beq h
      subst hc
      rw [if_pos h, paraAux_nonWs rest (.seekSecond cur ['\n'])
        (fun x hx => by rcases List.mem_singleton.mp hx with rfl; decide)]
      rw [nonWs_cons_ws (by decide)]
      simp [paraStVal]
    · rw [if_neg h, paraAux_nonWs rest (.norm (c :: cur)) trivial]
      simp [paraStVal, List.reverse_cons, nonWs_append, nonWs_singleton,
        nonWs_cons_nw, nonWs_nil, List.append_assoc]
  | c :: rest, .seekSecond cur wsBuf, hw => by
    rw [paraAux]
    have hw' : ∀ x ∈ wsBuf, isWs x = true := hw
    have hbuf : nonWs wsBuf.reverse = [] :=
      nonWs_eq_nil_of_ws fun x hx => hw' x (List.mem_reverse.mp hx)
    by_cases h : c == '\n'
    · have hc : c = '\n' := eq_of_beq h
      subst hc
      rw [if_pos h, joinN_cons, paraAux_nonWs rest (.inSep [])
        (fun x hx => absurd hx (List.not_mem_nil x))]
      rw [nonWs_cons_ws (by decide)]
      simp [paraStVal]
    · rw [if_neg h]
      by_cases h2 : isWs c
      · rw [if_pos h2, paraAux_nonWs rest (.seekSecond cur (c :: wsBuf))
          (fun x hx => by
            rcases List.mem_cons.mp hx with rfl | hmem
            · exact h2
            · exact hw' x hmem)]
        rw [nonWs_cons_ws h2]
        simp [paraStVal]
      · rw [if_neg h2, paraAux_nonWs rest (.norm (c :: (wsBuf ++ cur))) trivial]
        simp [paraStVal, List.reverse_cons, List.reverse_append, nonWs_append,
          nonWs_singleton, nonWs_cons_nw, nonWs_nil, hbuf, List.append_assoc]
  | c :: rest, .inSep tail, hw => by
    rw [paraAux]
    have hw' : ∀ x ∈ tail, isWs x = true := hw
    have htail : nonWs tail.reverse = [] :=
      nonWs_eq_nil_of_ws fun x hx => hw' x (List.mem_reverse.mp hx)
    by_cases h : c == '\n'
    · have hc : c = '\n' := eq_of_beq h
      subst hc
      rw [if_pos h, paraAux_nonWs rest (.inSep [])
        (fun x hx => absurd hx (List.not_mem_nil x))]
      rw [nonWs_cons_ws (by decide)]
      simp [paraStVal]
    · rw [if_neg h]
      by_cases h2 : isWs c
      · rw [if_pos h2, paraAux_nonWs rest (.inSep (c :: tail))
          (fun x hx => by
            rcases List.mem_cons.mp hx with rfl | hmem
            · exact h2
            · exact hw' x hmem)]
        rw [nonWs_cons_ws h2]
        simp [paraStVal]
      · rw [if_neg h2, paraAux_nonWs rest (.norm (c :: tail)) trivial]
        simp [paraStVal, List.reverse_cons, nonWs_append, nonWs_singleton,
          nonWs_cons_nw, nonWs_nil, htail, List.append_assoc]

theorem splitParagraphs_nonWs (text : Str) : joinN (splitParagraphs text) = nonWs text := by
  have h := paraAux_nonWs text (.norm []) trivial
  simpa [splitParagraphs, paraStVal, nonWs] using h

theorem isEmpty_eq_nil {s : Str} (h : s.isEmpty = true) : s = [] :=
  List.isEmpty_iff.mp h

theorem nonWs_sepSp (p : Prop) [Decidable p] : nonWs (if p then ([] : Str) else [' ']) = [] := by
  by_cases h : p
  · rw [if_pos h]; rfl
  · rw [if_neg h]; decide

theorem nonWs_sepNl (p : Prop) [Decidable p] :
    nonWs (if p then ([] : Str) else ['\n', '\n']) = [] := by
  by_cases h : p
  · rw [if_pos h]; rfl
  · rw [if_neg h]; decide

theorem perm_append_swap (a b c : List α) : List.Perm (a ++ b ++ c) (a ++ c ++ b) := by
  rw [List.append_assoc, List.append_assoc]
  exact List.Perm.append_left a List.perm_append_comm

theorem pushWord_val (max : Nat) (chunks : List Str) (temp word : Str) :
    joinN (pushWord max (chunks, temp) word).1 ++ nonWs (pushWord max (chunks, temp) word).2
      = joinN chunks ++ nonWs temp ++ nonWs word := by
  rw [pushWord]
  by_cases h1 : temp.length + word.length + 1 > max
  · rw [if_pos h1]
    by_cases h2 : temp.isEmpty
    · rw [if_pos h2, isEmpty_eq_nil h2]
      simp only [joinN_append, joinN_cons, joinN_nil, nonWs_nil, List.append_nil,
        List.append_assoc]
      rw [← nonWs_append, List.take_append_drop]
    · rw [if_neg h2]
      simp only [joinN_append, joinN_cons, joinN_nil, nonWs_trimWs, List.append_nil,
        List.append_assoc]
  · rw [if_neg h1]
    simp only [nonWs_append, nonWs_sepSp, List.append_nil, List.nil_append,
      List.append_assoc]

theorem foldWords_val (max : Nat) :
    ∀ (ws : List Str) (chunks : List Str) (temp : Str),
      joinN ((ws.foldl (pushWord max) (chunks, temp)).1)
          ++ nonWs ((ws.foldl (pushWord max) (chunks, temp)).2)
        = joinN chunks ++ nonWs temp ++ joinN ws := by
  intro ws
  induction ws with
  | nil => intro chunks temp; simp [joinN_nil]
  | cons w rest ih =>
    intro chunks temp
    rw [List.foldl_cons]
    rcases hpw : pushWord max (chunks, temp) w with ⟨c', t'⟩
    have h1 := pushWord_val max chunks temp w
    rw [hpw] at h1
    rw [ih c' t', h1, joinN_cons]
    simp [List.append_assoc]

theorem mergeTemp_val (cur : Str) (c2 : List Str) (t2 : Str) :
    joinN (mergeTemp cur (c2, t2)).1 ++ nonWs (mergeTemp cur (c2, t2)).2
      = joinN c2 ++ nonWs cur ++ nonWs t2 := by
  rw [mergeTemp]
  by_cases h : (c2, t2).2.isEmpty
  · rw [if_pos h]
    have ht : t2 = [] := isEmpty_eq_nil h
    subst ht
    simp [nonWs_nil]
  · rw [if_neg h]
    simp only [nonWs_append, nonWs_sepSp, List.append_nil, List.nil_append,
      List.append_assoc]

theorem pushSentence_val (max : Nat) (chunks : List Str) (cur s : Str) :
    List.Perm
      (joinN (pushSentence max (chunks, cur) s).1 ++ nonWs (pushSentence max (chunks, cur) s).2)
      (joinN chunks ++ nonWs cur ++ nonWs s) := by
  rw [pushSentence]
  by_cases h1 : s.length > max
  · rw [if_pos h1]
    rcases hfw : (splitWs s).foldl (pushWord max) (chunks, []) with ⟨c2, t2⟩
    have h2 := foldWords_val max (splitWs s) chunks []
    rw [hfw, splitWs_nonWs, nonWs_nil, List.append_nil] at h2
    rw [mergeTemp_val]
    refine (perm_append_swap _ _ _).trans ?_
    rw [List.append_assoc, ← List.append_assoc, h2]
    exact perm_append_swap _ _ _
  · rw [if_neg h1]
    by_cases h2 : cur.length + s.length + 1 > max
    · rw [if_pos h2]
      simp [joinN_append, joinN_cons, joinN_nil, nonWs_trimWs, List.append_assoc]
    · rw [if_neg h2]
      simp [nonWs_append, nonWs_sepSp, List.append_assoc]

theorem foldSentences_val (max : Nat) :
    ∀ (ss : List Str) (chunks : List Str) (cur : Str),
      List.Perm
        (joinN ((ss.foldl (pushSentence max) (chunks, cur)).1)
          ++ nonWs ((ss.foldl (pushSentence max) (chunks, cur)).2))
        (joinN chunks ++ nonWs cur ++ joinN ss) := by
  intro ss
  induction ss with
  | nil => intro chunks cur; simp [joinN_nil]
  | cons s rest ih =>
    intro chunks cur
    rw [List.foldl_cons]
    rcases hps : pushSentence max (chunks, cur) s with ⟨c', t'⟩
    have h1 := pushSentence_val max chunks cur s
    rw [hps] at h1
    have h2 := ih c' t'
    refine h2.trans ?_
    have h3 := h1.append_right (joinN rest)
    refine h3.trans ?_
    rw [joinN_cons]
    simp [List.append_assoc]

theorem pushParagraph_val (max : Nat) (chunks : List Str) (cur para : Str) :
    List.Perm
      (joinN (pushParagraph max (chunks, cur) para).1
        ++ nonWs (pushParagraph max (chunks, cur) para).2)
      (joinN chunks ++ nonWs cur ++ nonWs para) := by
  rw [pushParagraph]
  by_cases h1 : para.length > max
  · rw [if_pos h1]
    have h2 := foldSentences_val max (sentSplit para) chunks cur
    rw [sentSplit_nonWs] at h2
    exact h2
  · rw [if_neg h1]
    by_cases h2 : cur.length + para.length + 2 > max
    · rw [if_pos h2]
      simp [joinN_append, joinN_cons, joinN_nil, nonWs_trimWs, List.append_assoc]
    · rw [if_neg h2]
      simp [nonWs_append, nonWs_sepNl, List.append_assoc]

theorem foldParagraphs_val (max : Nat) :
    ∀ (ps : List Str) (chunks : List Str) (cur : Str),
      List.Perm
        (joinN ((ps.foldl (pushParagraph max) (chunks, cur)).1)
          ++ nonWs ((ps.foldl (pushParagraph max) (chunks, cur)).2))
        (joinN chunks ++ nonWs cur ++ joinN ps) := by
  intro ps
  induction ps with
  | nil => intro chunks cur; simp [joinN_nil]
  | cons p rest ih =>
    intro chunks cur
    rw [List.foldl_cons]
    rcases hpp : pushParagraph max (chunks, cur) p with ⟨c', t'⟩
    have h1 := pushParagraph_val max chunks cur p
    rw [hpp] at h1
    have h2 := ih c' t'
    refine h2.trans ?_
    have h3 := h1.append_right (joinN rest)
    refine h3.trans ?_
    rw [joinN_cons]
    simp [List.append_assoc]

theorem splitTextIntoChunks_content (text : Str) (max : Nat) :
    List.Perm (joinN (splitTextIntoChunks text max)) (nonWs text) := by
  rw [splitTextIntoChunks]
  rcases hf : (splitParagraphs text).foldl (pushParagraph max) ([], []) with ⟨chunks, cur⟩
  have h1 := foldParagraphs_val max (splitParagraphs text) [] []
  rw [hf, splitParagraphs_nonWs] at h1
  simp only [joinN_nil, nonWs_nil, List.nil_append] at h1
  rw [finalFlush]
  by_cases h2 : (chunks, cur).2.isEmpty
  · rw [if_pos h2]
    have hc : cur = [] := isEmpty_eq_nil h2
    subst hc
    rw [nonWs_nil, List.append_nil] at h1
    exact h1
  · rw [if_neg h2]
    rw [joinN_append, joinN_cons, joinN_nil, List.append_nil, nonWs_trimWs]
    exact h1

theorem pushParagraph_bound (max : Nat) (chunks : List Str) (cur para : Str)
    (hpara : para.length ≤ max) (hchunks : ∀ c ∈ chunks, c.length ≤ max)
    (hcur : cur.length ≤ max) :
    (∀ c ∈ (pushParagraph max (chunks, cur) para).1, c.length ≤ max) ∧
      (pushParagraph max (chunks, cur) para).2.length ≤ max := by
  rw [pushParagraph, if_neg (by omega)]
  by_cases h2 : cur.length + para.length + 2 > max
  · rw [if_pos h2]
    refine ⟨?_, hpara⟩
    intro c hc
    rcases List.mem_append.mp hc with h | h
    · exact hchunks c h
    · rcases List.mem_singleton.mp h with rfl
      exact le_trans (trimWs_length_le cur) hcur
  · rw [if_neg h2]
    refine ⟨hchunks, ?_⟩
    by_cases h3 : cur.isEmpty
    · have hc : cur = [] := isEmpty_eq_nil h3
      subst hc
      simp only [List.isEmpty_nil, if_true, List.length_append, List.length_nil]
      omega
    · rw [if_neg h3]
      simp only [List.length_append, List.length_cons, List.length_nil]
      omega

theorem foldParagraphs_bound (max : Nat) :
    ∀ (ps : List Str) (chunks : List Str) (cur : Str),
      (∀ p ∈ ps, p.length ≤ max) → (∀ c ∈ chunks, c.length ≤ max) → cur.length ≤ max →
      (∀ c ∈ (ps.foldl (pushParagraph max) (chunks, cur)).1, c.length ≤ max) ∧
        ((ps.foldl (pushParagraph max) (chunks, cur)).2).length ≤ max := by
  intro ps
  induction ps with
  | nil => intro chunks cur _ hchunks hcur; exact ⟨hchunks, hcur⟩
  | cons p rest ih =>
    intro chunks cur hps hchunks hcur
    rw [List.foldl_cons]
    rcases hpp : pushParagraph max (chunks, cur) p with ⟨c', t'⟩
    have hb := pushParagraph_bound max chunks cur p (hps p (by simp)) hchunks hcur
    rw [hpp] at hb
    exact ih c' t' (fun q hq => hps q (by simp [hq])) hb.1 hb.2

theorem splitTextIntoChunks_bound (text : Str) (max : Nat)
    (h : ∀ p ∈ splitParagraphs text, p.length ≤ max) :
    ∀ c ∈ splitTextIntoChunks text max, c.length ≤ max := by
  rw [splitTextIntoChunks]
  rcases hf : (splitParagraphs text).foldl (pushParagraph max) ([], []) with ⟨chunks, cur⟩
  have hb := foldParagraphs_bound max (splitParagraphs text) [] [] h
    (by intro c hc; simp at hc) (by simp)
  rw [hf] at hb
  rw [finalFlush]
  by_cases h2 : (chunks, cur).2.isEmpty
  · rw [if_pos h2]
    exact hb.1
  · rw [if_neg h2]
    intro c hc
    rcases List.mem_append.mp hc with hm | hm
    · exact hb.1 c hm
    · rcases List.mem_singleton.mp hm with rfl
      exact le_trans (trimWs_length_le cur) hb.2

/-- Claim C2 counterexample: on the text "Hi. aaaa bb cccc dd" with
maxChunkSize 10 the chunker emits the word-packed chunk "aaaa bb" before the
pending buffer holding "Hi.", so the concatenated segments do not reproduce
the non-whitespace characters of the input in the original document order. -/
theorem chunker_concat_order_counterexample :
    ¬ (joinN (splitTextIntoChunks ("Hi. aaaa bb cccc dd".toList) 10)
        = nonWs ("Hi. aaaa bb cccc dd".toList)) := by
  decide

/-- Claim C2 (amended): for every input text and maxChunkSize, the
concatenation of the chunks returned by splitTextIntoChunks contains every
non-whitespace character of the input exactly once (a permutation of the
input's non-whitespace content), though not necessarily in the original
document order. -/
theorem chunker_concat_perm (text : Str) (max : Nat) :
    List.Perm (joinN (splitTextIntoChunks text max)) (nonWs text) :=
  splitTextIntoChunks_content text max

/-- Claim C5 counterexample: in "Hello. aaaa bb cccc dd" with maxChunkSize 10
every whitespace-delimited word has length at most 10, so the midpoint
hard-split degenerate case cannot arise, yet the chunker emits a chunk longer
than 10 (the leftover of the word loop is merged into the running buffer with
no size check). -/
theorem chunker_bound_counterexample :
    ((splitWs ("Hello. aaaa bb cccc dd".toList)).all
        (fun w => decide (w.length ≤ 10)) = true) ∧
    ¬ ((splitTextIntoChunks ("Hello. aaaa bb cccc dd".toList) 10).all
        (fun c => decide (c.length ≤ 10)) = true) := by
  decide

/-- Claim C5 (amended): every chunk returned by splitTextIntoChunks has
length at most maxChunkSize provided no paragraph of the input exceeds
maxChunkSize; in general the bound can also be violated without any
oversized word, because the leftover of the word-packing loop is merged into
the running buffer unchecked. -/
theorem chunker_bound_of_paragraphs (text : Str) (max : Nat)
    (h : ∀ p ∈ splitParagraphs text, p.length ≤ max) :
    ∀ c ∈ splitTextIntoChunks text max, c.length ≤ max :=
  splitTextIntoChunks_bound text max h

/-- Witness for chunker_bound_of_paragraphs at the text "hi there" with
maxChunkSize 100. -/
theorem chunker_bound_of_paragraphs_witness :
    (splitTextIntoChunks ("hi there".toList) 100).all
      (fun c => decide (c.length ≤ 100)) = true := by
  have h := chunker_bound_of_paragraphs ("hi there".toList) 100 (by decide)
  exact List.all_eq_true.mpr (fun c hc => decide_eq_true (h c hc))

/-- Claim C6 counterexample: with maxChunkSize 1 the empty input yields one
empty segment (the buffer is flushed by the "+ 2 > max" check before the
paragraph is appended), and the whitespace-only input " " yields one empty
segment at maxChunkSize 5 - neither is the empty sequence the claim
requires for every maxChunkSize at least 1. -/
theorem chunker_empty_counterexample :
    ¬ (splitTextIntoChunks [] 1 = []) ∧ ¬ (splitTextIntoChunks (" ".toList) 5 = []) := by
  decide

/-- Claim C6 (amended): splitTextIntoChunks on the empty input returns zero
segments for every maxChunkSize at least 2; at maxChunkSize 1 it instead
returns one empty segment, and a whitespace-only input also yields an empty
segment rather than zero segments. -/
theorem chunker_empty_input :
    (∀ max : Nat, 2 ≤ max → splitTextIntoChunks [] max = []) ∧
    splitTextIntoChunks [] 1 = [[]] ∧ splitTextIntoChunks (" ".toList) 5 = [[]] := by
  refine ⟨?_, by decide, by decide⟩
  intro max h
  have h0 : ¬ (([] : Str).length > max) := by simp
  have h2 : ¬ (([] : Str).length + ([] : Str).length + 2 > max) := by
    simp only [List.length_nil]
    omega
  rw [splitTextIntoChunks]
  show finalFlush (List.foldl (pushParagraph max) ([], []) [[]]) = []
  rw [List.foldl_cons, List.foldl_nil, pushParagraph, if_neg h0, if_neg h2]
  simp [finalFlush]

/-- Witness for chunker_empty_input at maxChunkSize 2. -/
theorem chunker_empty_input_witness : splitTextIntoChunks [] 2 = [] :=
  chunker_empty_input.1 2 (by omega)

theorem mapIdxFrom_length (f : Nat → α → β) :
    ∀ (k : Nat) (l : List α), (mapIdxFrom f k l).length = l.length
  | _, [] => rfl
  | k, _ :: as => by
    rw [mapIdxFrom]
    simp [mapIdxFrom_length f (k + 1) as]

theorem mapIdxFrom_getElem? (f : Nat → α → β) :
    ∀ (l : List α) (k n : Nat), (mapIdxFrom f k l)[n]? = (l[n]?).map (f (k + n))
  | [], k, n => by simp [mapIdxFrom]
  | a :: as, k, 0 => by simp [mapIdxFrom]
  | a :: as, k, n + 1 => by
    rw [mapIdxFrom]
    simp only [List.getElem?_cons_succ]
    rw [mapIdxFrom_getElem? f as (k + 1) n]
    have : k + 1 + n = k + (n + 1) := by omega
    rw [this]

theorem chunkSummaries_getElem? (client : Nat → ClientRes) (chunks : List Str)
    (i : Nat) (c : Str) (h : chunks[i]? = some c) :
    (chunkSummaries client chunks)[i]? = some (processChunk client i c) := by
  rw [chunkSummaries, mapIdxFrom_getElem?, h]
  simp

theorem skippedIdxFrom_mem :
    ∀ (l : List Str) (k i : Nat) (c : Str), l[i]? = some c →
      MAX_CHUNK_SIZE < c.length → (k + i + 1) ∈ skippedIdxFrom k l
  | [], _, i, c, h, _ => by simp at h
  | a :: rest, k, 0, c, h, hbig => by
    simp only [List.getElem?_cons_zero, Option.some.injEq] at h
    subst h
    rw [skippedIdxFrom, if_pos (by omega)]
    simp
  | a :: rest, k, i + 1, c, h, hbig => by
    simp only [List.getElem?_cons_succ] at h
    have hm := skippedIdxFrom_mem rest (k + 1) i c h hbig
    have he : k + 1 + i + 1 = k + (i + 1) + 1 := by omega
    rw [skippedIdxFrom]
    by_cases ha : a.length > MAX_CHUNK_SIZE
    · rw [if_pos ha]
      exact List.mem_cons_of_mem _ (he ▸ hm)
    · rw [if_neg ha]
      exact he ▸ hm

theorem filter_eraseIdx_of_not (p : α → Bool) :
    ∀ (l : List α) (i : Nat) (a : α), l[i]? = some a → p a = false →
      l.filter p = (l.eraseIdx i).filter p
  | [], i, a, h, _ => by simp at h
  | x :: rest, 0, a, h, hp => by
    simp only [List.getElem?_cons_zero, Option.some.injEq] at h
    subst h
    rw [List.eraseIdx_cons_zero, List.filter_cons, if_neg (by simp [hp])]
  | x :: rest, i + 1, a, h, hp => by
    simp only [List.getElem?_cons_succ] at h
    rw [List.eraseIdx_cons_succ, List.filter_cons, List.filter_cons,
      ← filter_eraseIdx_of_not p rest i a h hp]

/-- Claim C3: in the summarize-document fan-out, each segment's outcome is
captured independently.  For 5 chunks within the model size where the client
fails only on index 2 (and succeeds with non-bracketed summaries elsewhere),
the summaries array has 5 entries, entry 2 is the Failed marker
"[Error summarizing section 3]", and every other entry is that segment's own
summary, classified as successful. -/
theorem aggregator_isolation (chunks : List Str) (client : Nat → ClientRes) (g : Nat → Str)
    (hlen : chunks.length = 5)
    (hsize : ∀ c ∈ chunks, c.length ≤ MAX_CHUNK_SIZE)
    (herr : client 2 = ClientRes.failed)
    (hok : ∀ i, i ≠ 2 → client i = ClientRes.ok (g i))
    (hg : ∀ i, isBracketed (g i) = false) :
    (chunkSummaries client chunks).length = 5 ∧
    (chunkSummaries client chunks)[2]? = some (errMsg 3) ∧
    startsWithL "[Error".toList (errMsg 3) = true ∧
    (∀ i, i < 5 → i ≠ 2 →
      (chunkSummaries client chunks)[i]? = some (g i) ∧ isBracketed (g i) = false) := by
  have hgete : ∀ i, i < 5 → ∃ c, chunks[i]? = some c ∧ c ∈ chunks := by
    intro i hi
    have hi' : i < chunks.length := by omega
    exact ⟨chunks[i], List.getElem?_eq_getElem hi', List.getElem_mem hi'⟩
  refine ⟨by rw [chunkSummaries, mapIdxFrom_length, hlen], ?_, by decide, ?_⟩
  · obtain ⟨c, hc, hcm⟩ := hgete 2 (by omega)
    rw [chunkSummaries_getElem? client chunks 2 c hc, processChunk,
      if_neg (by have := hsize c hcm; omega), herr]
  · intro i hi hne
    obtain ⟨c, hc, hcm⟩ := hgete i hi
    refine ⟨?_, hg i⟩
    rw [chunkSummaries_getElem? client chunks i c hc, processChunk,
      if_neg (by have := hsize c hcm; omega), hok i hne]

/-- Witness for aggregator_isolation: five one-character chunks, a client
failing exactly on index 2 and answering "ok summary" elsewhere. -/
theorem aggregator_isolation_witness :
    (chunkSummaries (fun i => if i = 2 then ClientRes.failed else ClientRes.ok ("ok summary".toList))
        (["a", "b", "c", "d", "e"].map String.toList)).length = 5 ∧
    (chunkSummaries (fun i => if i = 2 then ClientRes.failed else ClientRes.ok ("ok summary".toList))
        (["a", "b", "c", "d", "e"].map String.toList))[2]? = some (errMsg 3) ∧
    (chunkSummaries (fun i => if i = 2 then ClientRes.failed else ClientRes.ok ("ok summary".toList))
        (["a", "b", "c", "d", "e"].map String.toList))[0]? = some ("ok summary".toList) := by
  have h := aggregator_isolation (["a", "b", "c", "d", "e"].map String.toList)
    (fun i => if i = 2 then ClientRes.failed else ClientRes.ok ("ok summary".toList))
    (fun _ => "ok summary".toList)
    (by decide) (by decide) (by decide)
    (fun i hi => by simp [hi])
    (fun i => by show isBracketed ("ok summary".toList) = false; decide)
  exact ⟨h.1, h.2.1, (h.2.2.2 0 (by omega) (by omega)).1⟩

/-- Claim C8: a chunk whose length exceeds MAX_CHUNK_SIZE is marked with the
Skipped marker, the marker is independent of the client (the client is never
consulted for it), it is classified as a bracket marker, its 1-based index is
recorded in skippedChunks, and it contributes nothing to the successful
summaries that make up combinedText. -/
theorem aggregator_oversize_skip (chunks : List Str) (client client2 : Nat → ClientRes)
    (i : Nat) (c : Str) (hget : chunks[i]? = some c) (hbig : MAX_CHUNK_SIZE < c.length) :
    (chunkSummaries client chunks)[i]? = some (skippedMsg (i + 1)) ∧
    (chunkSummaries client chunks)[i]? = (chunkSummaries client2 chunks)[i]? ∧
    isBracketed (skippedMsg (i + 1)) = true ∧
    (i + 1) ∈ skippedChunksOf chunks ∧
    successfulOf (chunkSummaries client chunks)
      = successfulOf ((chunkSummaries client chunks).eraseIdx i) := by
  have hskip : ∀ cl : Nat → ClientRes,
      (chunkSummaries cl chunks)[i]? = some (skippedMsg (i + 1)) := by
    intro cl
    rw [chunkSummaries_getElem? cl chunks i c hget, processChunk, if_pos (by omega)]
  have hbr : isBracketed (skippedMsg (i + 1)) = true := rfl
  refine ⟨hskip client, by rw [hskip client, hskip client2], hbr, ?_, ?_⟩
  · have := skippedIdxFrom_mem chunks 0 i c hget hbig
    simpa [skippedChunksOf] using this
  · exact filter_eraseIdx_of_not _ (chunkSummaries client chunks) i (skippedMsg (i + 1))
      (hskip client) (by simp [hbr])

/-- Witness for aggregator_oversize_skip: a single 2001-character chunk with
two different clients. -/
theorem aggregator_oversize_skip_witness :
    (chunkSummaries (fun _ => ClientRes.failed) [List.replicate 2001 'a'])[0]?
      = some (skippedMsg 1) ∧
    (1 : Nat) ∈ skippedChunksOf [List.replicate 2001 'a'] := by
  have h := aggregator_oversize_skip [List.replicate 2001 'a']
    (fun _ => ClientRes.failed) (fun _ => ClientRes.rateLimited) 0
    (List.replicate 2001 'a') rfl (by simp only [List.length_replicate, MAX_CHUNK_SIZE]; omega)
  exact ⟨h.1, h.2.2.2.1⟩

theorem joinSep_ne_nil (sep : Str) (hsep : sep ≠ []) :
    ∀ (l : List Str) (s : Str), s ∈ l → s ≠ [] → joinSep sep l ≠ []
  | [], s, hm, _ => by simp at hm
  | [x], s, hm, hs => by
    rcases List.mem_singleton.mp hm with rfl
    simpa [joinSep] using hs
  | x :: y :: rest, s, _, _ => by
    intro hcontra
    simp only [joinSep] at hcontra
    rcases List.append_eq_nil.mp (List.append_eq_nil.mp hcontra).1 with ⟨-, h2⟩
    exact hsep h2

/-- Claim C4 counterexample: with one in-size chunk for which the client
succeeds with the empty summary text, the code counts one successful summary
yet still takes the HTTP 500 "Failed to generate any summaries" branch,
because the empty combined string is falsy - so "at least one Summarized
implies a non-empty combinedText is returned" fails as stated. -/
theorem aggregator_combine_counterexample :
    (successfulOf (chunkSummaries (fun _ => ClientRes.ok []) ["hello".toList])).length = 1 ∧
    summarizeDocumentOutcome (fun _ => ClientRes.ok []) ["hello".toList]
      = DocSummaryResult.noSummaries := by
  decide

/-- Claim C4 (amended): if no summary is classified successful, the
aggregator returns the hard failure rather than an empty success; and if at
least one successful summary is non-empty, the success response is returned
and its combinedText - the successful summaries joined with a blank line in
segment-index order - is non-empty.  (A Summarized segment whose summary
text is empty can still produce the hard-failure branch.) -/
theorem aggregator_combine (chunks : List Str) (client : Nat → ClientRes) :
    (successfulOf (chunkSummaries client chunks) = [] →
      summarizeDocumentOutcome client chunks = DocSummaryResult.noSummaries) ∧
    ((∃ s ∈ successfulOf (chunkSummaries client chunks), s ≠ []) →
      summarizeDocumentOutcome client chunks
        = DocSummaryResult.ok (combinedOf (chunkSummaries client chunks)) chunks.length
            (successfulOf (chunkSummaries client chunks)).length
            (((chunkSummaries client chunks).filter
                (fun s => startsWithL "[Error".toList s)).length)
            (skippedChunksOf chunks) ∧
      combinedOf (chunkSummaries client chunks) ≠ []) := by
  constructor
  · intro h
    rw [summarizeDocumentOutcome]
    have hc : combinedOf (chunkSummaries client chunks) = [] := by
      rw [combinedOf, h]
      rfl
    rw [hc]
    rfl
  · rintro ⟨s, hmem, hs⟩
    have hne : combinedOf (chunkSummaries client chunks) ≠ [] := by
      rw [combinedOf]
      exact joinSep_ne_nil _ (by decide) _ s hmem hs
    refine ⟨?_, hne⟩
    rw [summarizeDocumentOutcome]
    have hE : (combinedOf (chunkSummaries client chunks)).isEmpty = false := by
      cases hx : (combinedOf (chunkSummaries client chunks)).isEmpty
      · rfl
      · exact absurd (isEmpty_eq_nil hx) hne
    rw [hE]
    rfl

/-- Witness for aggregator_combine: one chunk, client answering "sum". -/
theorem aggregator_combine_witness :
    summarizeDocumentOutcome (fun _ => ClientRes.ok ("sum".toList)) ["hello".toList]
      = DocSummaryResult.ok ("sum".toList) 1 1 0 [] ∧ ("sum".toList : Str) ≠ [] := by
  have h := (aggregator_combine ["hello".toList] (fun _ => ClientRes.ok ("sum".toList))).2
    ⟨"sum".toList, by decide, by decide⟩
  exact ⟨h.1.trans (by decide), by decide⟩

/-- Claim C9: the verify-answers grader marks an answer correct exactly when
the submitted and correct strings agree case-insensitively, and grades an
answer with a missing (empty) submitted or correct value incorrect with the
explanatory feedback string instead of raising an error. -/
theorem grader_case_insensitive (a : Ai.AnswerSubmission) :
    ((a.selectedAnswer = [] ∨ a.correctAnswer = []) →
      (Ai.gradeAnswer a).isCorrect = false ∧
        (Ai.gradeAnswer a).feedback = Ai.noAnswerFeedback) ∧
    (a.selectedAnswer ≠ [] → a.correctAnswer ≠ [] →
      ((Ai.gradeAnswer a).isCorrect = true ↔
        lowerStr a.selectedAnswer = lowerStr a.correctAnswer)) := by
  constructor
  · intro h
    have hE : (a.selectedAnswer.isEmpty || a.correctAnswer.isEmpty) = true := by
      rcases h with h | h <;> simp [h]
    rw [Ai.gradeAnswer, if_pos hE]
    exact ⟨rfl, rfl⟩
  · intro h1 h2
    have hE : (a.selectedAnswer.isEmpty || a.correctAnswer.isEmpty) = false := by
      simp [List.isEmpty_iff, h1, h2]
    rw [Ai.gradeAnswer, if_neg (by simp [hE])]
    simp only []
    constructor
    · intro h
      exact eq_of_beq h
    · intro h
      simpa using h

/-- Witness for grader_case_insensitive: selected "Paris" against correct
"paris" is graded correct. -/
theorem grader_case_insensitive_witness :
    (Ai.gradeAnswer ⟨1, [], "Paris".toList, "paris".toList⟩).isCorrect = true := by
  have h := (grader_case_insensitive ⟨1, [], "Paris".toList, "paris".toList⟩).2
    (by decide) (by decide)
  exact h.mpr (by decide)

theorem padOptions_stuck (opts : List Str) (base : Str)
    (hlen : opts.length < 4) (hmem : P2.morphVariant base ∈ opts) :
    ∀ fuel, P2.padOptions fuel opts base = none
  | 0 => by rw [P2.padOptions, if_pos hlen]
  | fuel + 1 => by
    simp only [P2.padOptions]
    rw [if_pos hlen, if_pos hmem]
    exact padOptions_stuck opts base hlen hmem fuel

theorem padOptions_done (opts : List Str) (base : Str) (hlen : ¬ opts.length < 4) :
    ∀ fuel, P2.padOptions fuel opts base = some opts
  | 0 => by rw [P2.padOptions, if_neg hlen]
  | fuel + 1 => by
    simp only [P2.padOptions]
    rw [if_neg hlen]

theorem padOptions_ab :
    ∀ fuel, P2.padOptions fuel ["alpha".toList, "beta".toList] ("alpha".toList) = none
  | 0 => by decide
  | fuel + 1 => by
    simp only [P2.padOptions]
    rw [if_pos (by decide), if_neg (by decide)]
    exact padOptions_stuck _ _ (by decide) (by decide) fuel

theorem padOptions_ba :
    ∀ fuel, P2.padOptions fuel ["beta".toList, "alpha".toList] ("beta".toList) = none
  | 0 => by decide
  | fuel + 1 => by
    simp only [P2.padOptions]
    rw [if_pos (by decide), if_neg (by decide)]
    exact padOptions_stuck _ _ (by decide) (by decide) fuel

theorem c10_gq_red (fuel : Nat) (j : Nat) (qflag : Bool) (perm : List Str → List Str) :
    P2.generateQuestion fuel ⟨j, qflag, perm⟩ ("alpha beta is a an".toList)
      = (let termToUse := (["alpha".toList, "beta".toList] : List Str).getD (j % 2) [];
         let options0 := termToUse ::
           ((["alpha".toList, "beta".toList] : List Str).filter (fun t => t ≠ termToUse)).take 3;
         match P2.padOptions fuel options0 termToUse with
         | none => none
         | some opts => some (some ⟨trimWs (replaceFirst ("alpha beta is a an".toList) termToUse
             ("_____".toList)), (perm opts).take 4, termToUse⟩)) := rfl

theorem c10_gen_diverges (fuel j : Nat) (qflag : Bool) (perm : List Str → List Str) :
    P2.generateQuestion fuel ⟨j, qflag, perm⟩ ("alpha beta is a an".toList) = none := by
  rw [c10_gq_red fuel j qflag perm]
  rcases (by omega : j % 2 = 0 ∨ j % 2 = 1) with h | h
  · rw [h]
    show (match P2.padOptions fuel ["alpha".toList, "beta".toList] ("alpha".toList) with
          | none => none
          | some opts => some (some (⟨"_____ beta is a an".toList, (perm opts).take 4,
              "alpha".toList⟩ : P2.Question))) = none
    rw [padOptions_ab fuel]
  · rw [h]
    show (match P2.padOptions fuel ["beta".toList, "alpha".toList] ("beta".toList) with
          | none => none
          | some opts => some (some (⟨"alpha _____ is a an".toList, (perm opts).take 4,
              "beta".toList⟩ : P2.Question))) = none
    rw [padOptions_ba fuel]

theorem c10_short_gen (g : Nat) (rp : P2.RandPick) :
    P2.generateQuestion g rp ("short".toList) = some none := rfl

theorem c10_short_topUp (g : Nat) (rc : Nat → P2.RandPick) :
    ∀ (w k : Nat), P2.topUp g rc w k ["short".toList] [] = none := by
  intro w
  induction w with
  | zero =>
    intro k
    rw [P2.topUp, if_pos (by exact ⟨by simp, by simp⟩)]
  | succ w ih =>
    intro k
    rw [P2.topUp, if_pos (by exact ⟨by simp, by simp⟩)]
    have hin : P2.innerFor g rc k ["short".toList] [] = some (k + 1, []) := by
      rw [P2.innerFor, c10_short_gen g (rc k)]
      rfl
    rw [hin]
    exact ih (k + 1)

theorem c10_short_route (g w : Nat) (rc : Nat → P2.RandPick) :
    P2.generateQuizQuestions g w rc ("short".toList) = none := by
  rw [P2.generateQuizQuestions]
  have hch : P2.quizChunks ("short".toList) = ["short".toList] := by decide
  rw [hch]
  have hfp : P2.firstPass g rc 0 ["short".toList] [] = some (1, []) := by
    rw [P2.firstPass, c10_short_gen g (rc 0)]
    rfl
  rw [hfp]
  dsimp only
  rw [c10_short_topUp g rc w 1]

theorem quizInv_length {qs : List P2.Question} (h : quizInv qs) : qs.length ≤ 2 := by
  have hml : (qs.map P2.Question.question).length = qs.length := List.length_map _ _
  rcases h with h | h | h | h | h <;> rw [h] at hml <;> simp at hml <;> omega

theorem c7_gq_red (fuel : Nat) (j : Nat) (qflag : Bool) (perm : List Str → List Str) :
    P2.generateQuestion fuel ⟨j, qflag, perm⟩ quizTwoText
      = (let termToUse := (["alpha".toList, "alpha".toList, "beta".toList, "beta".toList] :
           List Str).getD (j % 4) [];
         let options0 := termToUse ::
           ((["alpha".toList, "alpha".toList, "beta".toList, "beta".toList] :
             List Str).filter (fun t => t ≠ termToUse)).take 3;
         match P2.padOptions fuel options0 termToUse with
         | none => none
         | some opts => some (some ⟨trimWs (replaceFirst quizTwoText termToUse
             ("_____".toList)), (perm opts).take 4, termToUse⟩)) := rfl

theorem c7_match_cases (fuel : Nat) (perm : List Str → List Str) (opts3 : List Str)
    (t qtext : Str) :
    (match P2.padOptions fuel opts3 t with
     | none => none
     | some opts => some (some (⟨qtext, (perm opts).take 4, t⟩ : P2.Question))) = none ∨
    ∃ q : P2.Question,
      (match P2.padOptions fuel opts3 t with
       | none => none
       | some opts => some (some (⟨qtext, (perm opts).take 4, t⟩ : P2.Question)))
        = some (some q) ∧ q.question = qtext := by
  cases hp : P2.padOptions fuel opts3 t with
  | none => left; rfl
  | some opts =>
    right
    refine ⟨⟨qtext, (perm opts).take 4, t⟩, ?_, rfl⟩
    rfl

theorem c7_gen (fuel : Nat) (rp : P2.RandPick) :
    P2.generateQuestion fuel rp quizTwoText = none ∨
    ∃ q : P2.Question, P2.generateQuestion fuel rp quizTwoText = some (some q) ∧
      (q.question = quizStemA ∨ q.question = quizStemB) := by
  obtain ⟨j, qflag, perm⟩ := rp
  rw [c7_gq_red fuel j qflag perm]
  rcases (by omega : j % 4 = 0 ∨ j % 4 = 1 ∨ j % 4 = 2 ∨ j % 4 = 3) with h | h | h | h <;> rw [h]
  · rcases c7_match_cases fuel perm ["alpha".toList, "beta".toList, "beta".toList]
      ("alpha".toList) quizStemA with hc | ⟨q, hc, hq⟩
    · exact Or.inl hc
    · exact Or.inr ⟨q, hc, Or.inl hq⟩
  · rcases c7_match_cases fuel perm ["alpha".toList, "beta".toList, "beta".toList]
      ("alpha".toList) quizStemA with hc | ⟨q, hc, hq⟩
    · exact Or.inl hc
    · exact Or.inr ⟨q, hc, Or.inl hq⟩
  · rcases c7_match_cases fuel perm ["beta".toList, "alpha".toList, "alpha".toList]
      ("beta".toList) quizStemB with hc | ⟨q, hc, hq⟩
    · exact Or.inl hc
    · exact Or.inr ⟨q, hc, Or.inr hq⟩
  · rcases c7_match_cases fuel perm ["beta".toList, "alpha".toList, "alpha".toList]
      ("beta".toList) quizStemB with hc | ⟨q, hc, hq⟩
    · exact Or.inl hc
    · exact Or.inr ⟨q, hc, Or.inr hq⟩

theorem c7_innerFor (g : Nat) (rc : Nat → P2.RandPick) (k : Nat) (qs : List P2.Question)
    (hInv : quizInv qs) :
    P2.innerFor g rc k [quizTwoText] qs = none ∨
    ∃ k' qs', P2.innerFor g rc k [quizTwoText] qs = some (k', qs') ∧ quizInv qs' ∧
      qs'.length < 5 := by
  have hlen : qs.length ≤ 2 := quizInv_length hInv
  rcases c7_gen g (rc k) with hg | ⟨q, hg, hq⟩
  · left
    rw [P2.innerFor, hg]
  · rw [P2.innerFor, hg]
    dsimp only
    by_cases hdup : qs.any (fun q0 => q0.question == q.question) = true
    · rw [if_pos hdup]
      exact Or.inr ⟨k + 1, qs, rfl, hInv, by omega⟩
    · rw [if_neg hdup]
      have hmem : q.question ∉ qs.map P2.Question.question := by
        intro hm
        obtain ⟨q0, hq0, he⟩ := List.mem_map.mp hm
        exact hdup (List.any_eq_true.mpr ⟨q0, hq0, by simp [he]⟩)
      rw [if_neg (by simp only [List.length_append, List.length_cons, List.length_nil]; omega)]
      refine Or.inr ⟨k + 1, qs ++ [q], rfl, ?_, by
        simp only [List.length_append, List.length_cons, List.length_nil]; omega⟩
      rcases hInv with h | h | h | h | h <;> rcases hq with hq | hq <;>
        rw [hq, h] at hmem <;>
        simp only [quizInv, List.map_append, List.map_cons, List.map_nil, h, hq] <;>
        first
          | decide
          | (exact absurd (by decide) hmem)

theorem c7_topUp (g : Nat) (rc : Nat → P2.RandPick) :
    ∀ (w k : Nat) (qs : List P2.Question), quizInv qs →
      P2.topUp g rc w k [quizTwoText] qs = none := by
  intro w
  induction w with
  | zero =>
    intro k qs hInv
    rw [P2.topUp, if_pos ⟨by have := quizInv_length hInv; omega, by simp⟩]
  | succ w ih =>
    intro k qs hInv
    rw [P2.topUp, if_pos ⟨by have := quizInv_length hInv; omega, by simp⟩]
    rcases c7_innerFor g rc k qs hInv with h | ⟨k', qs', h, hInv', _⟩
    · rw [h]
    · rw [h]
      exact ih k' qs' hInv'

theorem c7_firstPass (g : Nat) (rc : Nat → P2.RandPick) :
    P2.firstPass g rc 0 [quizTwoText] [] = none ∨
    ∃ k qs, P2.firstPass g rc 0 [quizTwoText] [] = some (k, qs) ∧ quizInv qs := by
  rcases c7_gen g (rc 0) with hg | ⟨q, hg, hq⟩
  · left
    rw [P2.firstPass, hg]
  · right
    rw [P2.firstPass, hg]
    dsimp only
    rw [if_neg (by simp)]
    refine ⟨1, [q], rfl, ?_⟩
    rcases hq with hq | hq <;> simp [quizInv, hq]

/-- Claim C7: on the text "alpha alpha beta beta is", from which exactly two
distinct question stems can ever be synthesized, the generate-quiz question
collection never terminates: for every padding fuel, every while-loop fuel
and every stream of random draws the fuel model returns none, because the
de-duplicated question list can never reach 5 entries while the chunk list
stays non-empty, so the top-up while loop never exits.  The route therefore
hangs instead of returning the 2-question QuizSet the claim requires. -/
theorem quiz_route_two_questions_diverges (gqFuel wFuel : Nat) (rc : Nat → P2.RandPick) :
    P2.generateQuizQuestions gqFuel wFuel rc quizTwoText = none := by
  rw [P2.generateQuizQuestions]
  have hch : P2.quizChunks quizTwoText = [quizTwoText] := by decide
  rw [hch]
  rcases c7_firstPass gqFuel rc with h | ⟨k, qs, h, hInv⟩
  · rw [h]
  · rw [h]
    dsimp only
    rw [c7_topUp gqFuel rc wFuel k qs hInv]

/-- Claim C10: neither quiz loop terminates on every input.  The
option-padding while loop of generateQuestion recomputes the same
morphological variant forever on the concept "alpha beta is a an" (for every
fuel and every random draw the fuel model returns none), and the top-up
while loop of the generate-quiz route never exits on the text "short", whose
single chunk can never yield a question. -/
theorem quiz_loops_diverge :
    (∀ (padFuel pick : Nat) (qflag : Bool) (perm : List Str → List Str),
       P2.generateQuestion padFuel ⟨pick, qflag, perm⟩ ("alpha beta is a an".toList) = none) ∧
    (∀ (gqFuel wFuel : Nat) (rc : Nat → P2.RandPick),
       P2.generateQuizQuestions gqFuel wFuel rc ("short".toList) = none) :=
  ⟨fun padFuel pick qflag perm => c10_gen_diverges padFuel pick qflag perm,
   fun gqFuel wFuel rc => c10_short_route gqFuel wFuel rc⟩

theorem ai_padKeys_some_length :
    ∀ (fuel : Nat) (rk : Nat → Nat) (j : Nat) (opts r : List Str),
      Ai.padKeysLoop fuel rk j opts = some r → 4 ≤ r.length
  | 0, rk, j, opts, r => by
    rw [Ai.padKeysLoop]
    by_cases h4 : opts.length < 4
    · rw [if_pos h4]
      intro h
      cases h
    · rw [if_neg h4]
      intro h
      injection h with h
      subst h
      omega
  | fuel + 1, rk, j, opts, r => by
    simp only [Ai.padKeysLoop]
    by_cases h4 : opts.length < 4
    · rw [if_pos h4]
      exact ai_padKeys_some_length fuel rk (j + 1) _ r
    · rw [if_neg h4]
      intro h
      injection h with h
      subst h
      omega

theorem p2_padOptions_some_facts :
    ∀ (fuel : Nat) (opts : List Str) (base : Str) (r : List Str),
      P2.padOptions fuel opts base = some r →
      4 ≤ r.length ∧ (opts.length ≤ 4 → r.length = 4) ∧ ∀ x ∈ opts, x ∈ r
  | 0, opts, base, r => by
    rw [P2.padOptions]
    by_cases h4 : opts.length < 4
    · rw [if_pos h4]
      intro h
      cases h
    · rw [if_neg h4]
      intro h
      injection h with h
      subst h
      exact ⟨by omega, fun hle => by omega, fun x hx => hx⟩
  | fuel + 1, opts, base, r => by
    simp only [P2.padOptions]
    by_cases h4 : opts.length < 4
    · rw [if_pos h4]
      intro h
      have hf := p2_padOptions_some_facts fuel _ base r h
      by_cases hmem : P2.morphVariant base ∈ opts
      · rw [if_pos hmem] at h hf
        exact ⟨hf.1, hf.2.1 ∘ fun hle => by omega, hf.2.2⟩
      · rw [if_neg hmem] at h hf
        refine ⟨hf.1, fun hle => hf.2.1 (by simp; omega), fun x hx => hf.2.2 x (by simp [hx])⟩
    · rw [if_neg h4]
      intro h
      injection h with h
      subst h
      exact ⟨by omega, fun hle => by omega, fun x hx => hx⟩

/-- Claim C1 counterexample: the ai.ts synthesizer violates both invariants
the claim asserts.  On a sentence of six repeated long words the fallback
path copies the same key term into all four options (exact duplicates, for
the identity shuffle).  On a sentence matching the curated table the
candidate list grows to 18 options and the shuffle-then-slice keeps only 4,
so for the reversing shuffle the correctAnswer "artificial intelligence" is
absent from the emitted options. -/
theorem synthesizer_options_counterexample :
    (Ai.generateQuestion 0 (fun _ => 0) (fun l => l)
        ("alpha alpha alpha alpha alpha alpha".toList)
      = some (some ⟨"Which of the following best describes alpha?".toList,
          ["alpha".toList, "alpha".toList, "alpha".toList, "alpha".toList], "alpha".toList⟩) ∧
     ¬ (["alpha".toList, "alpha".toList, "alpha".toList, "alpha".toList] : List Str).Nodup) ∧
    (Ai.generateQuestion 0 (fun _ => 0) List.reverse
        ("Artificial intelligence is the future of computing.".toList)
      = some (some ⟨"What is the definition of artificial intelligence?".toList,
          ["system".toList, "algorithm".toList, "model".toList, "data".toList],
          "artificial intelligence".toList⟩) ∧
     "artificial intelligence".toList ∉
       (["system".toList, "algorithm".toList, "model".toList, "data".toList] : List Str)) :=
  ⟨⟨by decide, by decide⟩, ⟨by decide, by decide⟩⟩

/-- Claim C1 (amended): whenever either synthesizer produces a Question its
options list contains exactly 4 strings (for every shuffle that permutes or
at least preserves length), and the part_002 synthesizer keeps correctAnswer
among the options; but the ai.ts synthesizer can drop the correctAnswer when
the curated-table path overfills the candidate list, and both synthesizers
can emit duplicate options. -/
theorem synthesizer_four_options :
    (∀ (padFuel : Nat) (rk : Nat → Nat) (perm : List Str → List Str) (concept : Str)
       (q : P2.Question), (∀ l, (perm l).length = l.length) →
       Ai.generateQuestion padFuel rk perm concept = some (some q) →
       q.options.length = 4) ∧
    (∀ (padFuel : Nat) (rp : P2.RandPick) (concept : Str) (q : P2.Question),
       (∀ l, List.Perm (rp.perm l) l) →
       P2.generateQuestion padFuel rp concept = some (some q) →
       q.options.length = 4 ∧ q.correct ∈ q.options) := by
  constructor
  · intro padFuel rk perm concept q hperm h
    simp only [Ai.generateQuestion] at h
    split at h
    · simp at h
    · split at h
      · simp at h
      · split at h
        next heqFound => simp at h
        next main related heqFound =>
          split at h
          next heqPad => simp at h
          next opts heqPad =>
            simp only [Option.some.injEq] at h
            subst h
            show ((perm opts).take 4).length = 4
            rw [List.length_take, hperm opts]
            have h4 := ai_padKeys_some_length padFuel rk 0 _ opts heqPad
            omega
  · intro padFuel rp concept q hperm h
    simp only [P2.generateQuestion] at h
    split at h
    · simp at h
    · split at h
      · simp at h
      · split at h
        · simp at h
        · split at h
          next heqPad => simp at h
          next opts heqPad =>
            simp only [Option.some.injEq] at h
            subst h
            have hf := p2_padOptions_some_facts padFuel _ _ opts heqPad
            have hlen4 : opts.length = 4 := hf.2.1 (by
              simp only [List.length_cons, List.length_take]
              omega)
            constructor
            · show ((rp.perm opts).take 4).length = 4
              rw [List.length_take, (hperm opts).length_eq, hlen4]
              exact Nat.min_self 4
            · show _ ∈ (rp.perm opts).take 4
              have htake : (rp.perm opts).take 4 = rp.perm opts :=
                List.take_of_length_le (by rw [(hperm opts).length_eq, hlen4])
              rw [htake]
              exact ((hperm opts).mem_iff).mpr (hf.2.2 _ (List.mem_cons_self _ _))

/-- Witness for synthesizer_four_options at a concrete concept with the
identity shuffle: the produced options list has exactly 4 entries. -/
theorem synthesizer_four_options_witness :
    (["artificial intelligence".toList, "machine learning".toList, "deep learning".toList,
      "neural networks".toList] : List Str).length = 4 := by
  have h := synthesizer_four_options.1 0 (fun _ => 0) (fun l => l)
    ("Artificial intelligence is the future of computing.".toList)
    ⟨"What is the definition of artificial intelligence?".toList,
     ["artificial intelligence".toList, "machine learning".toList, "deep learning".toList,
      "neural networks".toList], "artificial intelligence".toList⟩
    (fun l => rfl) (by decide)
  exact h
